import Mathlib

/-!
Verification of the notegraph note-ingestion and graph-extraction core
(src/models.rs, src/server.rs) against its natural-language specification.

Text is modelled as `List Char`. External dependencies (the `convert_case`
title-casing, the typst compiler, the SVG frame renderer) are parameters of
the embedding: the repository's own logic never inspects their output
structure, it only threads it through.
-/

namespace Notegraph

/-- Text is a list of characters. -/
abbrev Str := List Char

/-- Unicode White_Space, the set trimmed by Rust's `str::trim` and matched by
the regex class `\s`. -/
def isRustWhitespace (c : Char) : Bool :=
  c = ' ' || c = '\t' || c = '\n' || c.val = 0x0B || c.val = 0x0C || c = '\r' ||
  c.val = 0x85 || c.val = 0xA0 || c.val = 0x1680 ||
  (0x2000 ≤ c.val && c.val ≤ 0x200A) ||
  c.val = 0x2028 || c.val = 0x2029 || c.val = 0x202F || c.val = 0x205F || c.val = 0x3000

/-- Word characters of the regex class `\w` (ASCII fragment: letters, digits,
underscore). -/
def isWordChar (c : Char) : Bool :=
  c.isAlpha || c.isDigit || c = '_'

/-- Characters matched by the bare-reference inner class `[\w_\s]`. -/
def bare_class (c : Char) : Bool :=
  isWordChar c || c = '_' || isRustWhitespace c

/-- Characters matched by the titled-reference inner class `[\w\s_-]`. -/
def titled_class (c : Char) : Bool :=
  isWordChar c || isRustWhitespace c || c = '_' || c = '-'

/-- Rust `str::trim`: drop leading and trailing whitespace. -/
def trimStr (s : Str) : Str :=
  ((s.dropWhile isRustWhitespace).reverse.dropWhile isRustWhitespace).reverse

/-- Rust `str::split_once("\n")`: split at the first newline, which is
consumed; `none` when the text has no newline. -/
def split_once_nl : Str → Option (Str × Str)
  | [] => none
  | c :: rest =>
    if c = '\n' then some ([], rest)
    else (split_once_nl rest).map (fun p => (c :: p.1, p.2))

/-- Head-position match of the bare-reference regex
`\[([\w_\s]*)\][^\(]`: an opening bracket, a greedy run of class
characters, a closing bracket, then one consumed character that is not an
opening parenthesis.  Returns the capture and the text after the match. -/
def bare_match_at : Str → Option (Str × Str)
  | [] => none
  | c :: rest =>
    if c = '[' then
      match rest.dropWhile bare_class with
      | b :: d :: rest3 =>
        if b = ']' ∧ d ≠ '(' then some (rest.takeWhile bare_class, rest3) else none
      | _ => none
    else none

/-- Head-position match of the titled-reference regex
`\[[^\]]*\]\(([\w\s_-]*)\)`: a bracketed title (no closing bracket inside),
immediately followed by a parenthesised run of class characters.  Returns
the capture and the text after the match. -/
def titled_match_at : Str → Option (Str × Str)
  | [] => none
  | c :: rest =>
    if c = '[' then
      match rest.dropWhile (fun x => x != ']') with
      | b :: d :: rest3 =>
        if b = ']' ∧ d = '(' then
          match rest3.dropWhile titled_class with
          | e :: rest4 =>
            if e = ')' then some (rest3.takeWhile titled_class, rest4) else none
          | [] => none
        else none
      | _ => none
    else none

/-- Fuelled scanner implementing `Regex::captures_iter`: leftmost
non-overlapping matches, the text after each match is rescanned from its
first character. -/
def scan_captures (m : Str → Option (Str × Str)) : Nat → Str → List Str
  | 0, _ => []
  | _ + 1, [] => []
  | fuel + 1, c :: rest =>
    match m (c :: rest) with
    | some (cap, rest2) => cap :: scan_captures m fuel rest2
    | none => scan_captures m fuel rest

/-- All captures of a matcher over a text, in order. -/
def scan (m : Str → Option (Str × Str)) (s : Str) : List Str :=
  scan_captures m s.length s

/-- A note record: one per source file, as in `struct Node` of models.rs. -/
structure Node where
  id : Str
  title : Str
  short : Str
  long : Str
  long_text_svg : Option Str
  deriving DecidableEq, Repr

/-- A directory entry as far as `Node::parse` inspects it: the file name as
seen through `OsString::to_str` (`none` for a non-UTF8 name) and the result
of `fs::read_to_string` (`none` for an unreadable or non-UTF8 file). -/
structure DirEntry where
  file_name : Option Str
  content : Option Str
  deriving DecidableEq, Repr

/-- Errors of `Model::read` (`enum OpenModelError`). -/
inductive OpenModelError where
  | NotADir
  | CantParseNode
  deriving DecidableEq, Repr

/-- Errors of the rendering pipeline `render_typst_to_svg`. -/
inductive RenderError where
  | NoFontsAvailable
  | CompileError
  | EmptyDocument
  deriving DecidableEq, Repr

/-- Rust `String::replace(pat, repl)`: replace all non-overlapping
occurrences of `pat`, left to right (fuelled helper). -/
def replace_all_from (pat repl : Str) : Nat → Str → Str
  | 0, s => s
  | _ + 1, [] => []
  | fuel + 1, c :: rest =>
    if pat.isPrefixOf (c :: rest) then
      repl ++ replace_all_from pat repl fuel ((c :: rest).drop pat.length)
    else
      c :: replace_all_from pat repl fuel rest

/-- Rust `String::replace(pat, repl)` over our text model. -/
def replace_all (pat repl s : Str) : Str :=
  replace_all_from pat repl s.length s

/-- The post-processing `svg.replace("<rect", "<rect fill=\"none\"")` that
forces a transparent background. -/
def make_transparent (svg : Str) : Str :=
  replace_all ("<rect".toList) ("<rect fill=\"none\"".toList) svg

/-- Text the `format!` template places before the long body. -/
def template_pre : Str :=
  ("\n#set page(\n    width: 600pt,\n    margin: 20pt,\n    fill: rgb(\"transparent\"),\n)\n#set text(\n    size: 12pt,\n    fill: rgb(0, 0, 0),\n)\n").toList

/-- Text the `format!` template places after the long body. -/
def template_post : Str := ("\n").toList

/-- The `format!` wrapping of the trimmed long body into the fixed
presentation template. -/
def wrap_template (lt : Str) : Str :=
  template_pre ++ lt ++ template_post

/-- The function `render_typst_to_svg` of models.rs.  The typst engine is
external, so its stages are parameters: `worldOk` is whether
`TypstWorld::new` found a usable font (its only failure mode), `compile` is
`typst::compile` returning the document's pages (`none` on a compile
error), `svgOf` is `typst_svg::svg` on one page.  The repository's own
logic is the staging: world failure, then compile failure, then
`pages.first` (`EmptyDocument` when absent), then the transparency
post-processing of the rendered first page. -/
def render_typst_to_svg (worldOk : Bool) (compile : Str → Option (List Str))
    (svgOf : Str → Str) (code : Str) : Except RenderError Str :=
  if worldOk then
    match compile code with
    | none => .error .CompileError
    | some document =>
      match document.head? with
      | none => .error .EmptyDocument
      | some frame => .ok (make_transparent (svgOf frame))
  else .error .NoFontsAvailable

/-- Whether a character starts the text. -/
def starts_with_char (c : Char) : Str → Bool
  | [] => false
  | x :: _ => x = c

/-- The body of `Node::parse` after the file name and content have been
read successfully.  `tc` is the external `convert_case` title-casing
(`to_case(Case::Title)`); `rend` is the outcome of `render_typst_to_svg`
on the wrapped body (`none` on any rendering failure, which the code
swallows). -/
def parse_content (tc : Str → Str) (rend : Str → Option Str)
    (name content : Str) : Node :=
  let p := (split_once_nl content).getD (content, [])
  let long_trimmed := trimStr p.2
  let long_text_svg :=
    if starts_with_char '#' long_trimmed || long_trimmed.contains '$' then
      rend (wrap_template long_trimmed)
    else none
  { title := tc name
    id := name
    short := trimStr p.1
    long := long_trimmed
    long_text_svg := long_text_svg }

/-- The function `Node::parse` of models.rs: fails (returns `none`) when
the directory-iteration item was an error (`file.ok()` gave `None`), the
file name is not UTF-8, or the content cannot be read as UTF-8 text. -/
def Node.parse (tc : Str → Str) (rend : Str → Option Str) :
    Option DirEntry → Option Node
  | none => none
  | some f => do
    let name ← f.file_name
    let content ← f.content
    some (parse_content tc rend name content)

/-- The regex-driven reference extractor `Node::get_connections`: bare
captures over `short`, then over `long`, then titled captures over
`short`, then over `long`. -/
def Node.get_connections (n : Node) : List Str :=
  scan bare_match_at n.short ++ scan bare_match_at n.long ++
    scan titled_match_at n.short ++ scan titled_match_at n.long

/-- The loaded model: an ordered collection of nodes (`struct Model`). -/
structure Model where
  nodes : List Node
  deriving DecidableEq, Repr

/-- The loop body of `Model::read`: parse each enumerated entry in order,
failing fast with `CantParseNode` on the first entry that does not parse. -/
def read_nodes (tc : Str → Str) (rend : Str → Option Str) :
    List (Option DirEntry) → Except OpenModelError (List Node)
  | [] => .ok []
  | f :: rest =>
    match Node.parse tc rend f with
    | some node => (read_nodes tc rend rest).map (fun ns => node :: ns)
    | none => .error .CantParseNode

/-- The function `Model::read`: `fs::read_dir` failure (`dir = none`) maps
to `NotADir`; otherwise every enumerated entry is parsed in enumeration
order. -/
def Model.read (tc : Str → Str) (rend : Str → Option Str)
    (dir : Option (List (Option DirEntry))) : Except OpenModelError Model :=
  match dir with
  | none => .error .NotADir
  | some entries => (read_nodes tc rend entries).map (fun ns => { nodes := ns })

/-- The accessor `Model::get_nodes` (a clone of the node list). -/
def Model.get_nodes (m : Model) : List Node :=
  m.nodes

/-- The graph builder `Model::get_edges`: for every node, one
`[source_id, target_id]` pair per extracted connection; rayon's indexed
`par_iter().map(..).collect_into_vec` preserves input order, so the
parallel map is embedded as a sequential order-preserving map, flattened
by `concat`. -/
def Model.get_edges (m : Model) : List (List Str) :=
  (m.nodes.map (fun a => a.get_connections.map (fun b => [a.id, b]))).flatten

/-- The handler of `GET /api/edges` in server.rs: a stub that ignores the
model and returns an empty list. -/
def server_get_edges : List (List Str) := []

/-- A one-node model whose note text holds one bare reference, used to
exercise the edges endpoint against the graph builder. -/
def model_a : Model :=
  { nodes := [{ id := "a".toList, title := "A".toList, short := "[b] ".toList,
                long := [], long_text_svg := none }] }

/-- A node whose short text is the spec's first extraction example. -/
def node_ex1 : Node :=
  { id := [], title := [], short := "[alpha] and [Beta](gamma)".toList,
    long := [], long_text_svg := none }

/-- A node whose short text is the spec's second extraction example. -/
def node_ex2 : Node :=
  { id := [], title := [], short := "[alpha](beta)".toList,
    long := [], long_text_svg := none }

/-- A node whose short text ends in a bare bracketed token. -/
def node_trailing : Node :=
  { id := [], title := [], short := "[note_id]".toList,
    long := [], long_text_svg := none }

/-- A node with an empty bracket pair followed by a non-parenthesis. -/
def node_empty_bare : Node :=
  { id := [], title := [], short := "[]x".toList,
    long := [], long_text_svg := none }

/-- A node with a titled reference whose parenthesised id is empty. -/
def node_empty_titled : Node :=
  { id := [], title := [], short := "[Title]()".toList,
    long := [], long_text_svg := none }

/-- A one-node model whose note text yields an empty-string capture. -/
def model_empty_target : Model :=
  { nodes := [{ id := "n".toList, title := "N".toList, short := "[]x".toList,
                long := [], long_text_svg := none }] }

end Notegraph

namespace Notegraph

/-! Helper lemmas about the scanner and the text primitives. -/

/-- The scanner ignores fuel beyond the text length, provided the matcher
always consumes at least one character. -/
theorem scan_captures_congr (m : Str → Option (Str × Str))
    (hm : ∀ s cap r2, m s = some (cap, r2) → r2.length < s.length) :
    ∀ f1 f2 s, s.length ≤ f1 → s.length ≤ f2 →
      scan_captures m f1 s = scan_captures m f2 s := by
  intro f1
  induction f1 with
  | zero =>
    intro f2 s h1 _
    have hs : s = [] := List.length_eq_zero.mp (Nat.le_zero.mp h1)
    subst hs
    cases f2 <;> rfl
  | succ f1 ih =>
    intro f2 s h1 h2
    cases s with
    | nil => cases f2 <;> rfl
    | cons c rest =>
      cases f2 with
      | zero => exact absurd h2 (by simp)
      | succ f2 =>
        show scan_captures m (f1 + 1) (c :: rest) = scan_captures m (f2 + 1) (c :: rest)
        simp only [scan_captures]
        cases hmc : m (c :: rest) with
        | none =>
          have hr : rest.length ≤ f1 := Nat.le_of_succ_le_succ h1
          have hr2 : rest.length ≤ f2 := Nat.le_of_succ_le_succ h2
          exact ih f2 rest hr hr2
        | some p =>
          obtain ⟨cap, r2⟩ := p
          have hlt := hm _ _ _ hmc
          have hr : r2.length ≤ f1 := by
            have := Nat.lt_of_lt_of_le hlt h1
            omega
          have hr2 : r2.length ≤ f2 := by
            have := Nat.lt_of_lt_of_le hlt h2
            omega
          simp only [ih f2 r2 hr hr2]

/-- A successful match at the head of the text yields the capture followed
by the scan of the remaining text. -/
theorem scan_head_match (m : Str → Option (Str × Str))
    (hm : ∀ s cap r2, m s = some (cap, r2) → r2.length < s.length)
    (c : Char) (rest cap r2 : Str) (h : m (c :: rest) = some (cap, r2)) :
    scan m (c :: rest) = cap :: scan m r2 := by
  have hlt := hm _ _ _ h
  show scan_captures m (c :: rest).length (c :: rest) = cap :: scan m r2
  simp only [List.length_cons, scan_captures, h]
  exact congrArg (cap :: ·)
    (scan_captures_congr m hm rest.length r2.length r2
      (by simp only [List.length_cons] at hlt; omega) le_rfl)

/-- The bare-reference matcher always consumes at least one character. -/
theorem bare_match_at_shrinks :
    ∀ s cap r2, bare_match_at s = some (cap, r2) → r2.length < s.length := by
  intro s cap r2 h
  unfold bare_match_at at h
  split at h
  · exact absurd h (by simp)
  next c rest =>
    split at h
    · split at h
      next b d rest3 heq =>
        split at h
        · simp only [Option.some_inj, Prod.mk.injEq] at h
          rw [h.2.symm]
          have hlen : (b :: d :: rest3).length ≤ rest.length := by
            rw [← heq]; exact (List.dropWhile_sublist bare_class).length_le
          simp only [List.length_cons] at hlen ⊢
          omega
        · exact absurd h (by simp)
      next => exact absurd h (by simp)
    · exact absurd h (by simp)

/-- The closing bracket is outside the bare inner class. -/
theorem bare_class_rbracket : bare_class ']' = false := by decide

/-- The bare matcher on a well-formed token followed by one more
character: it matches exactly when that character is not an opening
parenthesis, captures the inner text and consumes the following
character. -/
theorem bare_match_at_token (t : Str) (c : Char) (s : Str)
    (ht : ∀ x ∈ t, bare_class x = true) :
    bare_match_at ('[' :: (t ++ ']' :: c :: s)) =
      if c = '(' then none else some (t, s) := by
  simp only [bare_match_at, if_pos rfl]
  rw [List.dropWhile_append_of_pos ht, List.takeWhile_append_of_pos ht]
  rw [List.dropWhile_cons, List.takeWhile_cons]
  simp only [bare_class_rbracket]
  by_cases hc : c = '('
  · simp [hc]
  · simp [hc]

/-- The bare matcher never matches a bracketed token that ends the text:
the regex demands a character after the closing bracket. -/
theorem bare_match_at_token_at_end (t : Str)
    (ht : ∀ x ∈ t, bare_class x = true) :
    bare_match_at ('[' :: (t ++ [']'])) = none := by
  simp only [bare_match_at, if_pos rfl]
  rw [List.dropWhile_append_of_pos ht]
  rw [List.dropWhile_cons]
  simp [bare_class_rbracket]

/-- Text with no newline does not split. -/
theorem split_once_nl_of_no_newline (l : Str) (h : '\n' ∉ l) :
    split_once_nl l = none := by
  induction l with
  | nil => rfl
  | cons c rest ih =>
    simp only [List.mem_cons, not_or] at h
    have hcn : ¬(c = '\n') := fun hc => h.1 hc.symm
    simp only [split_once_nl, if_neg hcn, ih h.2, Option.map_none']

/-- Text splits at its first newline, which is consumed. -/
theorem split_once_nl_at_first (a b : Str) (h : '\n' ∉ a) :
    split_once_nl (a ++ '\n' :: b) = some (a, b) := by
  induction a with
  | nil => simp [split_once_nl]
  | cons c rest ih =>
    simp only [List.mem_cons, not_or] at h
    have hcn : ¬(c = '\n') := fun hc => h.1 hc.symm
    simp only [List.cons_append, split_once_nl, if_neg hcn, List.append_eq,
      ih h.2, Option.map_some']

/-- The fields of a parsed node that do not involve the renderer are the
same whatever the renderer returns. -/
theorem parse_content_fields_ignore_renderer (tc : Str → Str)
    (rend rend2 : Str → Option Str) (name content : Str) :
    (parse_content tc rend name content).id =
        (parse_content tc rend2 name content).id ∧
      (parse_content tc rend name content).title =
        (parse_content tc rend2 name content).title ∧
      (parse_content tc rend name content).short =
        (parse_content tc rend2 name content).short ∧
      (parse_content tc rend name content).long =
        (parse_content tc rend2 name content).long :=
  ⟨rfl, rfl, rfl, rfl⟩

/-! The claims. -/

/-- C1: the claim says the edges endpoint returns the Graph Builder's edge
list for the loaded Model.  The handler in server.rs is a stub ("TODO:
Implement actual edge retrieval") returning the empty list unconditionally,
so on a model with one reference the endpoint and `Model::get_edges`
disagree. -/
theorem server_edges_endpoint_is_stub :
    server_get_edges = [] ∧
      model_a.get_edges = [["a".toList, "b".toList]] ∧
      server_get_edges ≠ model_a.get_edges := by
  refine ⟨rfl, by decide, ?_⟩
  intro h
  rw [show model_a.get_edges = [["a".toList, "b".toList]] from by decide] at h
  exact absurd h (by simp [server_get_edges])

/-- C2: if any enumerated entry fails to parse, `Model::read` fails with
`CantParseNode` and no node list is produced. -/
theorem read_fails_fast_on_any_unparsable_entry (tc : Str → Str)
    (rend : Str → Option Str) (entries : List (Option DirEntry))
    (h : ∃ e ∈ entries, Node.parse tc rend e = none) :
    Model.read tc rend (some entries) = .error .CantParseNode := by
  have hnodes : read_nodes tc rend entries = .error .CantParseNode := by
    induction entries with
    | nil => obtain ⟨e, he, -⟩ := h; exact absurd he (by simp)
    | cons f rest ih =>
      obtain ⟨e, he, hp⟩ := h
      show (match Node.parse tc rend f with
        | some node => (read_nodes tc rend rest).map (fun ns => node :: ns)
        | none => .error .CantParseNode) = .error .CantParseNode
      cases hf : Node.parse tc rend f with
      | none => rfl
      | some node =>
        have hrest : e ∈ rest := by
          rcases List.mem_cons.mp he with rfl | hr
          · exact absurd hp (by rw [hf]; simp)
          · exact hr
        rw [ih ⟨e, hrest, hp⟩]
        rfl
  show (read_nodes tc rend entries).map (fun ns => ({ nodes := ns } : Model)) =
    .error .CantParseNode
  rw [hnodes]
  rfl

/-- Witness for C2 at a concrete directory with one failed entry. -/
theorem read_fails_fast_witness :
    Model.read (fun s => s) (fun _ => none) (some [(none : Option DirEntry)]) =
      .error .CantParseNode :=
  read_fails_fast_on_any_unparsable_entry (fun s => s) (fun _ => none)
    [none] ⟨none, by simp, rfl⟩

/-- C3: a directory of well-formed entries loads into a model with exactly
one node per entry, in enumeration order, each node keeping the file name
as `id` and carrying the title-cased name as `title`. -/
theorem read_wellformed_dir_one_node_per_entry (tc : Str → Str)
    (rend : Str → Option Str) (entries : List (Str × Str)) :
    Model.read tc rend
        (some (entries.map (fun p => some ⟨some p.1, some p.2⟩))) =
      .ok { nodes := entries.map (fun p => parse_content tc rend p.1 p.2) } ∧
    (entries.map (fun p => parse_content tc rend p.1 p.2)).length =
      entries.length ∧
    ∀ n c : Str, (parse_content tc rend n c).id = n ∧
      (parse_content tc rend n c).title = tc n := by
  refine ⟨?_, by simp, fun n c => ⟨rfl, rfl⟩⟩
  have hnodes : ∀ es : List (Str × Str),
      read_nodes tc rend (es.map (fun p => some ⟨some p.1, some p.2⟩)) =
        .ok (es.map (fun p => parse_content tc rend p.1 p.2)) := by
    intro es
    induction es with
    | nil => rfl
    | cons p rest ih =>
      show (match Node.parse tc rend (some ⟨some p.1, some p.2⟩) with
        | some node =>
          (read_nodes tc rend (rest.map (fun q : Str × Str => some ⟨some q.1, some q.2⟩))).map
            (fun ns => node :: ns)
        | none => .error .CantParseNode) = _
      rw [show Node.parse tc rend (some ⟨some p.1, some p.2⟩) =
        some (parse_content tc rend p.1 p.2) from rfl]
      rw [ih]
      rfl
  show (read_nodes tc rend (entries.map (fun p => some ⟨some p.1, some p.2⟩))).map
      (fun ns => ({ nodes := ns } : Model)) = _
  rw [hnodes entries]
  rfl

/-- C4: the parser splits the content at the first newline, trims both
sides, and a content without any newline becomes the whole (trimmed)
`short` with an empty `long`. -/
theorem parse_splits_at_first_newline (tc : Str → Str)
    (rend : Str → Option Str) (name : Str) :
    (∀ a b : Str, '\n' ∉ a →
      (parse_content tc rend name (a ++ '\n' :: b)).short = trimStr a ∧
      (parse_content tc rend name (a ++ '\n' :: b)).long = trimStr b) ∧
    (∀ content : Str, '\n' ∉ content →
      (parse_content tc rend name content).short = trimStr content ∧
      (parse_content tc rend name content).long = []) := by
  constructor
  · intro a b h
    have hs := split_once_nl_at_first a b h
    constructor
    · show trimStr ((split_once_nl (a ++ '\n' :: b)).getD (a ++ '\n' :: b, [])).1 = _
      rw [hs]
      exact rfl
    · show trimStr ((split_once_nl (a ++ '\n' :: b)).getD (a ++ '\n' :: b, [])).2 = _
      rw [hs]
      exact rfl
  · intro content h
    have hs := split_once_nl_of_no_newline content h
    constructor
    · show trimStr ((split_once_nl content).getD (content, [])).1 = _
      rw [hs]
      exact rfl
    · show trimStr ((split_once_nl content).getD (content, [])).2 = _
      rw [hs]
      exact rfl

/-- Witness for C4 at the spec's round-trip example and a newline-free
content. -/
theorem parse_splits_at_first_newline_witness :
    (parse_content (fun s => s) (fun _ => none) ("n".toList)
        ("Hello".toList ++ '\n' :: "World".toList)).short =
      trimStr ("Hello".toList) ∧
    (parse_content (fun s => s) (fun _ => none) ("n".toList)
        ("Hello".toList ++ '\n' :: "World".toList)).long =
      trimStr ("World".toList) ∧
    (parse_content (fun s => s) (fun _ => none) ("n".toList)
        ("abc".toList)).short = trimStr ("abc".toList) ∧
    (parse_content (fun s => s) (fun _ => none) ("n".toList)
        ("abc".toList)).long = [] := by
  have h := parse_splits_at_first_newline (fun s => s) (fun _ => none)
    ("n".toList)
  exact ⟨(h.1 ("Hello".toList) ("World".toList) (by decide)).1,
    (h.1 ("Hello".toList) ("World".toList) (by decide)).2,
    (h.2 ("abc".toList) (by decide)).1,
    (h.2 ("abc".toList) (by decide)).2⟩

/-- C5: rendering is attempted exactly when the trimmed long body starts
with a hash or contains a dollar sign; otherwise the node never gets a
rendered body. -/
theorem render_attempted_iff_styled (tc : Str → Str)
    (rend : Str → Option Str) (name content : Str) :
    (parse_content tc rend name content).long_text_svg =
      (if starts_with_char '#' (parse_content tc rend name content).long
          || (parse_content tc rend name content).long.contains '$' then
        rend (wrap_template (parse_content tc rend name content).long)
      else none) ∧
    ((starts_with_char '#' (parse_content tc rend name content).long = false ∧
        (parse_content tc rend name content).long.contains '$' = false) →
      (parse_content tc rend name content).long_text_svg = none) := by
  refine ⟨rfl, fun h => ?_⟩
  have e : (parse_content tc rend name content).long_text_svg =
      (if starts_with_char '#' (parse_content tc rend name content).long
          || (parse_content tc rend name content).long.contains '$' then
        rend (wrap_template (parse_content tc rend name content).long)
      else none) := rfl
  rw [e, h.1, h.2]
  rfl

/-- Witness for C5: a long body that is plain text gets no rendered body
even though the renderer would succeed. -/
theorem render_attempted_iff_styled_witness :
    (parse_content (fun s => s) (fun _ => some ("S".toList)) ("n".toList)
        ("a\nplain text".toList)).long_text_svg = none :=
  (render_attempted_iff_styled (fun s => s) (fun _ => some ("S".toList))
      ("n".toList) ("a\nplain text".toList)).2 ⟨by decide, by decide⟩

/-- C6: with a styled long body, a document compiling to zero pages makes
the renderer fail with `EmptyDocument`, yet the node still parses with all
the other fields intact and merely no rendered body; the rendering error
never escapes node construction. -/
theorem render_failure_nonfatal (worldOk : Bool)
    (compile : Str → Option (List Str)) (svgOf : Str → Str)
    (tc : Str → Str) (name content lt : Str)
    (hlt : lt = (parse_content tc (fun _ => none) name content).long)
    (hstyled : (starts_with_char '#' lt || lt.contains '$') = true)
    (hw : worldOk = true)
    (hzero : compile (wrap_template lt) = some []) :
    render_typst_to_svg worldOk compile svgOf (wrap_template lt) =
      .error .EmptyDocument ∧
    Node.parse tc
        (fun code => (render_typst_to_svg worldOk compile svgOf code).toOption)
        (some ⟨some name, some content⟩) =
      some (parse_content tc
        (fun code => (render_typst_to_svg worldOk compile svgOf code).toOption)
        name content) ∧
    (parse_content tc
        (fun code => (render_typst_to_svg worldOk compile svgOf code).toOption)
        name content).long_text_svg = none ∧
    (parse_content tc
        (fun code => (render_typst_to_svg worldOk compile svgOf code).toOption)
        name content).id = name ∧
    (parse_content tc
        (fun code => (render_typst_to_svg worldOk compile svgOf code).toOption)
        name content).title = tc name ∧
    (parse_content tc
        (fun code => (render_typst_to_svg worldOk compile svgOf code).toOption)
        name content).short =
      (parse_content tc (fun _ => none) name content).short ∧
    (parse_content tc
        (fun code => (render_typst_to_svg worldOk compile svgOf code).toOption)
        name content).long = lt := by
  have hrender : render_typst_to_svg worldOk compile svgOf (wrap_template lt) =
      .error .EmptyDocument := by
    simp [render_typst_to_svg, hw, hzero]
  have hlong : (parse_content tc
      (fun code => (render_typst_to_svg worldOk compile svgOf code).toOption)
      name content).long = lt := hlt.symm
  refine ⟨hrender, rfl, ?_, rfl, rfl, rfl, hlong⟩
  have e : (parse_content tc
      (fun code => (render_typst_to_svg worldOk compile svgOf code).toOption)
      name content).long_text_svg =
      (if starts_with_char '#' (parse_content tc
          (fun code => (render_typst_to_svg worldOk compile svgOf code).toOption)
          name content).long
        || ((parse_content tc
          (fun code => (render_typst_to_svg worldOk compile svgOf code).toOption)
          name content).long).contains '$' then
        (render_typst_to_svg worldOk compile svgOf
          (wrap_template (parse_content tc
            (fun code => (render_typst_to_svg worldOk compile svgOf code).toOption)
            name content).long)).toOption
      else none) := rfl
  rw [e, hlong, hstyled, if_pos rfl, hrender]
  rfl

/-- Witness for C6 at a concrete styled body whose document has zero
pages. -/
theorem render_failure_nonfatal_witness :
    render_typst_to_svg true (fun _ => some []) (fun s => s)
        (wrap_template ("$x$".toList)) = .error .EmptyDocument ∧
    (parse_content (fun s => s)
        (fun code =>
          (render_typst_to_svg true (fun _ => some []) (fun s => s) code).toOption)
        ("n".toList) ("a\n$x$".toList)).long_text_svg = none := by
  have h := render_failure_nonfatal true (fun _ => some []) (fun s => s)
    (fun s => s) ("n".toList) ("a\n$x$".toList) ("$x$".toList)
    (by decide) (by decide) rfl rfl
  exact ⟨h.1, h.2.2.1⟩

/-- C7: the extractor concatenates bare captures over `short`, bare
captures over `long`, titled captures over `short` and titled captures
over `long`, in that order; the spec's two examples evaluate as stated. -/
theorem get_connections_order_and_examples :
    (∀ n : Node, n.get_connections =
      scan bare_match_at n.short ++ scan bare_match_at n.long ++
        scan titled_match_at n.short ++ scan titled_match_at n.long) ∧
    node_ex1.get_connections = ["alpha".toList, "gamma".toList] ∧
    node_ex2.get_connections = ["beta".toList] :=
  ⟨fun _ => rfl, by decide, by decide⟩

/-- C8 counterexample: a bare bracketed token at the very end of a field
is not captured, because the bare regex consumes one character after the
closing bracket. -/
theorem bare_ref_trailing_not_captured :
    node_trailing.get_connections = [] ∧
      "note_id".toList ∉ node_trailing.get_connections := by decide

/-- C8 amended: a bracketed token of class characters is matched as a bare
reference exactly when it is immediately followed by a character other
than an opening parenthesis, capturing the inner text and consuming that
following character; at a match the scanner emits the capture; a token at
the very end of the field never matches. -/
theorem bare_ref_needs_following_char (t : Str) (c : Char) (s : Str)
    (ht : ∀ x ∈ t, bare_class x = true) :
    (c ≠ '(' →
      bare_match_at ('[' :: (t ++ ']' :: c :: s)) = some (t, s) ∧
      scan bare_match_at ('[' :: (t ++ ']' :: c :: s)) =
        t :: scan bare_match_at s) ∧
    (c = '(' → bare_match_at ('[' :: (t ++ ']' :: c :: s)) = none) ∧
    bare_match_at ('[' :: (t ++ [']'])) = none := by
  refine ⟨fun hc => ?_, fun hc => ?_, bare_match_at_token_at_end t ht⟩
  · have hm := bare_match_at_token t c s ht
    rw [if_neg hc] at hm
    exact ⟨hm, scan_head_match bare_match_at bare_match_at_shrinks '['
      (t ++ ']' :: c :: s) t s hm⟩
  · have hm := bare_match_at_token t c s ht
    rw [if_pos hc] at hm
    exact hm

/-- Witness for the amended C8 at a concrete token, followed by a space
and at the end of the field. -/
theorem bare_ref_needs_following_char_witness :
    scan bare_match_at ('[' :: ("note_id".toList ++ ']' :: ' ' :: [])) =
      ["note_id".toList] ∧
    bare_match_at ('[' :: ("note_id".toList ++ [']'])) = none := by
  have h := bare_ref_needs_following_char ("note_id".toList) ' ' []
    (by decide)
  exact ⟨((h.1 (by decide)).2).trans rfl, h.2.2⟩

/-- C9: the graph builder yields one edge per extracted connection,
`[source_id, target_id]`, and the edge list is the concatenation of the
per-node edge lists in model node order, with Σ k_i edges in total. -/
theorem get_edges_concat_in_model_order (m : Model) :
    m.get_edges =
      (m.nodes.map (fun a => a.get_connections.map (fun b => [a.id, b]))).flatten ∧
    m.get_edges.length =
      (m.nodes.map (fun a => a.get_connections.length)).sum := by
  refine ⟨rfl, ?_⟩
  show ((m.nodes.map
    (fun a => a.get_connections.map (fun b => [a.id, b]))).flatten).length = _
  rw [List.length_flatten, List.map_map]
  refine congrArg List.sum (List.map_congr_left ?_)
  intro a _
  simp [Function.comp]

/-- C10: the extractor can capture the empty string — an empty bracket
pair followed by a non-parenthesis matches the bare pattern, and a titled
form with empty parentheses matches the titled pattern — so the graph
builder can emit an edge with an empty target id. -/
theorem empty_id_capture_and_edge :
    node_empty_bare.get_connections = [[]] ∧
      node_empty_titled.get_connections = [[]] ∧
      model_empty_target.get_edges = [["n".toList, []]] := by decide

end Notegraph
